import Mathlib

/-!
Verification of the temporal versioning & consistency engine of the HoM
repository, as embedded from the SQL schema (`metric_configs`,
`employee_assignment_history`, `time_entries`, and the
`set_employee_external_id` trigger).

Dates are modelled as integers (day numbers); a PostgreSQL `daterange`
with half-open `[)` bounds is modelled by `Daterange`, where an absent
upper bound means `infinity` and the `empty` constructor is the empty
range that `daterange(d, d, [))` produces.
-/

namespace HoM

/-- A flat JSON value as it appears in a `scope` mapping: string, number
or null (`jsonb` scalar). -/
inductive JVal where
  | str (s : String)
  | num (n : Int)
  | null
deriving DecidableEq, Repr

/-- A raw scope mapping as supplied by a caller: an association list of
dimension name to value, in arbitrary order, possibly with duplicate
keys (later keys win, as in `jsonb` object construction). -/
abbrev Scope := List (String × JVal)

/-- The `jsonb` object key order: keys sorted by length first, then
bytewise (lexicographically). -/
def jkeyLt (a b : String) : Prop :=
  a.length < b.length ∨ (a.length = b.length ∧ a < b)

instance (a b : String) : Decidable (jkeyLt a b) :=
  inferInstanceAs (Decidable (_ ∨ _))

/-- Insert or replace a key in a `jkeyLt`-sorted association list,
keeping it sorted; models `jsonb` object construction where a later
duplicate key replaces an earlier one. -/
def canonUpsert (k : String) (v : JVal) : List (String × JVal) → List (String × JVal)
  | [] => [(k, v)]
  | (k', v') :: rest =>
    if k = k' then (k, v) :: rest
    else if jkeyLt k k' then (k, v) :: (k', v') :: rest
    else (k', v') :: canonUpsert k v rest

/-- Normalise a raw scope mapping into the `jsonb` object form: unique
keys in `jkeyLt` order, later duplicates winning. -/
def canonObject (s : Scope) : List (String × JVal) :=
  s.foldl (fun acc p => canonUpsert p.1 p.2 acc) []

/-- The generated column `scope_canonical = jsonb_strip_nulls(scope)`:
the `jsonb` object with null-valued keys removed. -/
def scope_canonical (s : Scope) : List (String × JVal) :=
  (canonObject s).filter (fun p => decide (p.2 ≠ JVal.null))

/-- Serialisation of a `jsonb` scalar to text. -/
def serializeJVal : JVal → String
  | .str s => "\"" ++ s ++ "\""
  | .num n => toString n
  | .null => "null"

/-- Serialisation of a `jsonb` object (already in canonical form) to
text, as `jsonb::text` renders it. -/
def serializeObject (l : List (String × JVal)) : String :=
  "\x7b" ++ String.intercalate "," (l.map (fun p => "\"" ++ p.1 ++ "\":" ++ serializeJVal p.2)) ++ "\x7d"

/-- The generated column
`scope_hash = digest(jsonb_strip_nulls(scope)::text, 'sha256')`.
The SHA-256 digest is modelled as the canonical text itself: equal texts
give equal digests, and collision resistance of distinct texts is
outside the embedding. -/
def scope_hash (s : Scope) : String :=
  serializeObject (scope_canonical s)

/-- The value the `jsonb` object built from `s` holds at key `k`:
the last occurrence of `k` wins, as in `jsonb` parsing. -/
def jLookup (s : Scope) (k : String) : Option JVal :=
  s.foldl (fun r q => if q.1 = k then some q.2 else r) none

/-- The value of the null-stripped mapping at key `k`: a null value at
`k`, like an absent key, reads back as `none`. -/
def strippedLookup (s : Scope) (k : String) : Option JVal :=
  match jLookup s k with
  | some .null => none
  | v => v

/-- First-match association lookup on a key/value list (on a
canonical object, whose keys are unique, this is the object's value at
the key). -/
def alookup (k : String) : List (String × JVal) → Option JVal
  | [] => none
  | p :: rest => if p.1 = k then some p.2 else alookup k rest

/-- A key/value list strictly sorted by `jkeyLt` on keys (the shape of
a `jsonb` object). -/
def keyOrdered (l : List (String × JVal)) : Prop :=
  l.Pairwise (fun p q => jkeyLt p.1 q.1)

/-- A PostgreSQL `DATE` as an integer day number. -/
abbrev Date := Int

/-- A `daterange` value with `[)` bounds: either the empty range, or an
interval with inclusive lower bound and exclusive upper bound, an absent
upper bound standing for `infinity`. -/
inductive Daterange where
  | empty
  | ivl (lo : Date) (hi : Option Date)
deriving DecidableEq, Repr

/-- Error taxonomy of the engine (PostgreSQL errors mapped to the names
the design gives them). -/
inductive Err where
  | invalidRange
  | overlapConflict (ids : List Nat)
  | notFound
  | alreadyClosed
  | tenantMismatch (rowCompany empCompany : Nat)
  | missingIdentifier (employeeId : Nat)
  | arithmeticMismatch
  | negativeValue
  | boundsViolation
deriving DecidableEq, Repr

/-- The `daterange(lo, coalesce(hi, 'infinity'), '[)')` constructor:
raises (range lower bound must be less than or equal to range upper
bound, reported as `InvalidRange`) when `hi < lo`, and produces the
empty range when `hi = lo`. -/
def daterange (lo : Date) (hi : Option Date) : Except Err Daterange :=
  match hi with
  | none => .ok (.ivl lo none)
  | some h =>
    if h < lo then .error .invalidRange
    else if h = lo then .ok .empty
    else .ok (.ivl lo (some h))

/-- The range overlap operator `&&`: the empty range overlaps nothing;
two non-empty half-open ranges overlap when each starts before the
other ends. -/
def Daterange.overlaps : Daterange → Daterange → Bool
  | .empty, _ => false
  | _, .empty => false
  | .ivl a b, .ivl c d =>
    (match d with
     | none => true
     | some d' => decide (a < d')) &&
    (match b with
     | none => true
     | some b' => decide (c < b'))

/-- Range membership `@>` for a point: `lo ≤ p` and `p` below the upper
bound (always below `infinity`). -/
def Daterange.containsPt : Daterange → Date → Bool
  | .empty, _ => false
  | .ivl a b, p =>
    decide (a ≤ p) &&
    (match b with
     | none => true
     | some b' => decide (p < b'))

/-- A row of `metric_configs`: the generic versioned record. `tenant` is
`company_id`, the subject is `metric_key`, and `scope_hash` and
`effective_range` are the stored generated columns. -/
structure MetricConfig where
  id : Nat
  company_id : Nat
  metric_key : String
  target_value : Option Int
  scope : Scope
  scope_hash : String
  effective_from : Date
  effective_to : Option Date
  effective_range : Daterange
deriving DecidableEq, Repr

/-- The persisted table. -/
abbrev Store := List MetricConfig

/-- An insert request for `metric_configs`. -/
structure InsertReq where
  company_id : Nat
  metric_key : String
  target_value : Option Int
  scope : Scope
  effective_from : Date
  effective_to : Option Date
deriving DecidableEq, Repr

/-- Whether a stored row belongs to the series keyed by
(`company_id`, `metric_key`, `scope_hash`) — the equality columns of the
`ex_metric_configs_no_overlap` exclusion constraint. -/
def sameSeries (r : MetricConfig) (c : Nat) (k : String) (h : String) : Bool :=
  decide (r.company_id = c) && decide (r.metric_key = k) && decide (r.scope_hash = h)

/-- The interval series of one (tenant, subject, scope-fingerprint) key. -/
def seriesOf (st : Store) (c : Nat) (k : String) (h : String) : List MetricConfig :=
  st.filter (fun r => sameSeries r c k h)

/-- The existing rows the exclusion constraint finds in conflict with a
new range: same series key and overlapping `effective_range`. -/
def conflictsWith (st : Store) (c : Nat) (k : String) (h : String) (rng : Daterange) : List MetricConfig :=
  st.filter (fun r => sameSeries r c k h && r.effective_range.overlaps rng)

/-- `INSERT INTO metric_configs`: computes the generated columns (the
range constructor can raise `InvalidRange`), then the
`ex_metric_configs_no_overlap` exclusion constraint rejects the row with
`OverlapConflict` when its range overlaps an existing row of the same
(`company_id`, `metric_key`, `scope_hash`) series; otherwise the row is
appended unchanged — no existing row is truncated or split. The
`employee_assignment_history` table and its
`ex_employee_assignment_no_overlap` constraint are the same store with a
fixed trivial scope. -/
def insertConfig (st : Store) (req : InsertReq) : Except Err (Nat × Store) :=
  match daterange req.effective_from req.effective_to with
  | .error e => .error e
  | .ok rng =>
    let h := scope_hash req.scope
    let confl := conflictsWith st req.company_id req.metric_key h rng
    if confl.isEmpty then
      .ok (st.length,
        st ++ [⟨st.length, req.company_id, req.metric_key, req.target_value,
               req.scope, h, req.effective_from, req.effective_to, rng⟩])
    else
      .error (.overlapConflict (confl.map (fun r => r.id)))

/-- Apply a list of insert requests in order; a failed insert leaves the
store unchanged (each statement is its own transaction). -/
def applyAll (reqs : List InsertReq) : Store :=
  reqs.foldl
    (fun st req =>
      match insertConfig st req with
      | .ok (_, st') => st'
      | .error _ => st)
    []

/-- `active_as_of`: the record of the series of (`company_id`,
`metric_key`, scope) whose effective range contains the given date, if
any. -/
def active_as_of (st : Store) (c : Nat) (k : String) (sc : Scope) (d : Date) : Option MetricConfig :=
  (seriesOf st c k (scope_hash sc)).find? (fun r => r.effective_range.containsPt d)

/-- The store invariant the exclusion constraint maintains: any two
distinct rows of the same (`company_id`, `metric_key`, `scope_hash`)
series have non-overlapping effective ranges. -/
def storeInv (st : Store) : Prop :=
  st.Pairwise (fun a b =>
    sameSeries a b.company_id b.metric_key b.scope_hash = true →
      a.effective_range.overlaps b.effective_range = false)

/-- A row of `time_entries` (the daily aggregate fact), restricted to
the columns the CHECK constraints and the trigger read. Nullable
columns are `Option`. -/
structure TimeEntry where
  company_id : Nat
  employee_id : Nat
  employee_external_id : Option String
  work_date : Date
  scheduled_minutes : Option Int
  worked_minutes : Int
  regular_minutes : Int
  ot1_minutes : Int
  ot2_minutes : Int
  absence_minutes : Option Int
deriving DecidableEq, Repr

/-- `chk_minutes_nonneg`: every minute field is nonnegative (null
scheduled or absence minutes pass vacuously). -/
def chk_minutes_nonneg (e : TimeEntry) : Bool :=
  decide (0 ≤ e.worked_minutes) && decide (0 ≤ e.regular_minutes) &&
  decide (0 ≤ e.ot1_minutes) && decide (0 ≤ e.ot2_minutes) &&
  (match e.scheduled_minutes with
   | none => true
   | some s => decide (0 ≤ s)) &&
  (match e.absence_minutes with
   | none => true
   | some a => decide (0 ≤ a))

/-- `chk_minutes_consistency`:
`worked_minutes = regular_minutes + ot1_minutes + ot2_minutes`. -/
def chk_minutes_consistency (e : TimeEntry) : Bool :=
  decide (e.worked_minutes = e.regular_minutes + e.ot1_minutes + e.ot2_minutes)

/-- `chk_absenteeism_bounds`:
`scheduled_minutes IS NULL OR (absence_minutes IS NOT NULL AND absence_minutes <= scheduled_minutes)`. -/
def chk_absenteeism_bounds (e : TimeEntry) : Bool :=
  match e.scheduled_minutes with
  | none => true
  | some s =>
    match e.absence_minutes with
    | none => false
    | some a => decide (a ≤ s)

/-- The CHECK constraints of `time_entries`, each violation reported
with its design-taxonomy error. A row is accepted only when all three
hold. -/
def checkTimeEntry (e : TimeEntry) : Except Err Unit :=
  if ¬ chk_minutes_nonneg e then .error .negativeValue
  else if ¬ chk_minutes_consistency e then .error .arithmeticMismatch
  else if ¬ chk_absenteeism_bounds e then .error .boundsViolation
  else .ok ()

/-- Modelled from the spec: the "unbounded" flag on an accepted fact.
The schema has no column for it; a fact is unbounded exactly when it has
no same-day schedule, i.e. `scheduled_minutes IS NULL`, so the flag is
derived rather than stored. -/
def isUnbounded (e : TimeEntry) : Bool :=
  e.scheduled_minutes.isNone

/-- A row of `employees` as the trigger reads it: `company_id` is
NOT NULL; `external_id` is kept `Option` because the trigger itself
guards against a null value. -/
structure Employee where
  id : Nat
  external_id : Option String
  company_id : Nat
deriving DecidableEq, Repr

/-- The employee directory (the `employees` table). -/
abbrev Directory := List Employee

/-- `SELECT external_id, company_id FROM employees WHERE id = eid`. -/
def lookupEmployee (dir : Directory) (eid : Nat) : Option Employee :=
  dir.find? (fun e => decide (e.id = eid))

/-- The NEW row as seen by the BEFORE INSERT/UPDATE trigger on
`time_entries` and `events`: only the columns the trigger touches.
`company_id` is `Option` because the BEFORE trigger runs before the
NOT NULL check. -/
structure TriggerRow where
  employee_id : Nat
  company_id : Option Nat
  employee_external_id : Option String
deriving DecidableEq, Repr

/-- The `set_employee_external_id()` trigger function: looks up the
employee; raises (`Employee not found or missing external_id`, reported
as `MissingIdentifier`) when the lookup yields no external id; raises
(`Company mismatch`, reported as `TenantMismatch`) when the row carries
a company id different from the employee's; otherwise sets
`company_id := COALESCE(NEW.company_id, emp_company)` and
`employee_external_id := emp_external`. -/
def set_employee_external_id (dir : Directory) (row : TriggerRow) : Except Err TriggerRow :=
  let emp := lookupEmployee dir row.employee_id
  let emp_external : Option String := emp.bind (fun e => e.external_id)
  let emp_company : Option Nat := emp.map (fun e => e.company_id)
  match emp_external with
  | none => .error (.missingIdentifier row.employee_id)
  | some ext =>
    match row.company_id, emp_company with
    | some rc, some ec =>
      if rc ≠ ec then .error (.tenantMismatch rc ec)
      else .ok { row with company_id := some rc, employee_external_id := some ext }
    | some rc, none =>
      .ok { row with company_id := some rc, employee_external_id := some ext }
    | none, ec => .ok { row with company_id := ec, employee_external_id := some ext }

/-! ### Basic lemmas about the store -/

theorem mem_seriesOf {st : Store} {c : Nat} {k h : String} {r : MetricConfig} :
    r ∈ seriesOf st c k h ↔ r ∈ st ∧ sameSeries r c k h = true := by
  simp [seriesOf, List.mem_filter]

theorem mem_conflictsWith {st : Store} {c : Nat} {k h : String} {rng : Daterange}
    {r : MetricConfig} :
    r ∈ conflictsWith st c k h rng ↔
      r ∈ st ∧ sameSeries r c k h = true ∧ r.effective_range.overlaps rng = true := by
  simp [conflictsWith, List.mem_filter, and_assoc]

theorem conflictsWith_eq_nil {st : Store} {c : Nat} {k h : String} {rng : Daterange} :
    conflictsWith st c k h rng = [] ↔
      ∀ r ∈ seriesOf st c k h, r.effective_range.overlaps rng = false := by
  constructor
  · intro hnil r hr
    rcases mem_seriesOf.mp hr with ⟨hmem, hss⟩
    by_contra hov
    have : r ∈ conflictsWith st c k h rng :=
      mem_conflictsWith.mpr ⟨hmem, hss, by simpa using hov⟩
    simp [hnil] at this
  · intro hall
    rcases hconfl : conflictsWith st c k h rng with _ | ⟨r, rest⟩
    · rfl
    · have hr : r ∈ conflictsWith st c k h rng := by rw [hconfl]; exact List.mem_cons_self r rest
      rcases mem_conflictsWith.mp hr with ⟨hmem, hss, hov⟩
      have := hall r (mem_seriesOf.mpr ⟨hmem, hss⟩)
      rw [this] at hov
      exact absurd hov (by simp)

theorem insertConfig_ok_of_disjoint (st : Store) (req : InsertReq) (rng : Daterange)
    (hrng : daterange req.effective_from req.effective_to = .ok rng)
    (hall : ∀ r ∈ seriesOf st req.company_id req.metric_key (scope_hash req.scope),
      r.effective_range.overlaps rng = false) :
    insertConfig st req =
      .ok (st.length,
        st ++ [⟨st.length, req.company_id, req.metric_key, req.target_value, req.scope,
               scope_hash req.scope, req.effective_from, req.effective_to, rng⟩]) := by
  have hnil : conflictsWith st req.company_id req.metric_key (scope_hash req.scope) rng = [] :=
    conflictsWith_eq_nil.mpr hall
  simp [insertConfig, hrng, hnil]

theorem insertConfig_error_of_overlap (st : Store) (req : InsertReq) (rng : Daterange)
    (hrng : daterange req.effective_from req.effective_to = .ok rng)
    (hov : ∃ r ∈ seriesOf st req.company_id req.metric_key (scope_hash req.scope),
      r.effective_range.overlaps rng = true) :
    insertConfig st req =
      .error (.overlapConflict
        ((conflictsWith st req.company_id req.metric_key (scope_hash req.scope) rng).map
          (fun r => r.id))) := by
  rcases hov with ⟨r, hr, hov⟩
  rcases mem_seriesOf.mp hr with ⟨hmem, hss⟩
  have hrc : r ∈ conflictsWith st req.company_id req.metric_key (scope_hash req.scope) rng :=
    mem_conflictsWith.mpr ⟨hmem, hss, hov⟩
  have hne : (conflictsWith st req.company_id req.metric_key (scope_hash req.scope) rng).isEmpty = false := by
    rcases hconfl : conflictsWith st req.company_id req.metric_key (scope_hash req.scope) rng with _ | ⟨a, rest⟩
    · rw [hconfl] at hrc; simp at hrc
    · rfl
  simp [insertConfig, hrng, hne]

/-- C1: inserting a record whose half-open interval overlaps any
existing interval of the same (tenant, subject, scope) series fails with
`OverlapConflict` carrying the conflicting ids, and inserting an
interval disjoint from every interval of the series succeeds, appending
the new record and leaving every existing record untouched (no
truncation or splitting). -/
theorem c1_no_overlap_enforced (st : Store) (req : InsertReq) (rng : Daterange)
    (hrng : daterange req.effective_from req.effective_to = .ok rng) :
    ((∃ r ∈ seriesOf st req.company_id req.metric_key (scope_hash req.scope),
        r.effective_range.overlaps rng = true) →
      insertConfig st req =
        .error (.overlapConflict
          ((conflictsWith st req.company_id req.metric_key (scope_hash req.scope) rng).map
            (fun r => r.id)))) ∧
    ((∀ r ∈ seriesOf st req.company_id req.metric_key (scope_hash req.scope),
        r.effective_range.overlaps rng = false) →
      insertConfig st req =
        .ok (st.length,
          st ++ [⟨st.length, req.company_id, req.metric_key, req.target_value, req.scope,
                 scope_hash req.scope, req.effective_from, req.effective_to, rng⟩])) :=
  ⟨fun hov => insertConfig_error_of_overlap st req rng hrng hov,
   fun hall => insertConfig_ok_of_disjoint st req rng hrng hall⟩

/-- Witness for C1: in a series holding `[0, 10)`, inserting the exactly
adjacent interval `[10, 20)` succeeds, and inserting the overlapping
interval `[5, 15)` fails with `OverlapConflict [0]`. -/
theorem c1_no_overlap_enforced_witness :
    insertConfig
        [⟨0, 1, "m", none, [], scope_hash [], 0, some 10, .ivl 0 (some 10)⟩]
        ⟨1, "m", none, [], 10, some 20⟩ =
      .ok (1, [⟨0, 1, "m", none, [], scope_hash [], 0, some 10, .ivl 0 (some 10)⟩,
               ⟨1, 1, "m", none, [], scope_hash [], 10, some 20, .ivl 10 (some 20)⟩]) ∧
    insertConfig
        [⟨0, 1, "m", none, [], scope_hash [], 0, some 10, .ivl 0 (some 10)⟩]
        ⟨1, "m", none, [], 5, some 15⟩ =
      .error (.overlapConflict [0]) := by
  constructor
  · exact (c1_no_overlap_enforced
      [⟨0, 1, "m", none, [], scope_hash [], 0, some 10, .ivl 0 (some 10)⟩]
      ⟨1, "m", none, [], 10, some 20⟩ (.ivl 10 (some 20)) rfl).2 (by decide)
  · exact (c1_no_overlap_enforced
      [⟨0, 1, "m", none, [], scope_hash [], 0, some 10, .ivl 0 (some 10)⟩]
      ⟨1, "m", none, [], 5, some 15⟩ (.ivl 5 (some 15)) rfl).1
      ⟨⟨0, 1, "m", none, [], scope_hash [], 0, some 10, .ivl 0 (some 10)⟩, by decide, by decide⟩

/-- Counterexample for C6: an insert whose `effective_end` equals its
`effective_start` does not fail with `InvalidRange` — the generated
`daterange` is the empty range, the exclusion constraint never fires on
it, and the record is persisted. -/
theorem c6_counterexample :
    insertConfig [] ⟨1, "m", none, [], 0, some 0⟩ =
      .ok (0, [⟨0, 1, "m", none, [], scope_hash [], 0, some 0, .empty⟩]) := by
  rfl

/-- C6 (amended): if `effective_end` is present and strictly below
`effective_start`, the insert fails with `InvalidRange` (nothing is
persisted); if `effective_end` equals `effective_start`, the insert is
accepted and persists a record with an empty effective interval. -/
theorem c6_invalid_range (st : Store) (req : InsertReq) (e : Date)
    (he : req.effective_to = some e) :
    (e < req.effective_from → insertConfig st req = .error .invalidRange) ∧
    (e = req.effective_from →
      insertConfig st req =
        .ok (st.length,
          st ++ [⟨st.length, req.company_id, req.metric_key, req.target_value, req.scope,
                 scope_hash req.scope, req.effective_from, req.effective_to, .empty⟩])) := by
  constructor
  · intro hlt
    simp [insertConfig, daterange, he, hlt]
  · intro heq
    have hrng : daterange req.effective_from req.effective_to = .ok .empty := by
      simp [daterange, he, heq]
    have hnil : conflictsWith st req.company_id req.metric_key (scope_hash req.scope) .empty = [] := by
      apply conflictsWith_eq_nil.mpr
      intro r _
      cases r.effective_range <;> rfl
    simp [insertConfig, hrng, hnil]

/-- Witness for C6 (amended): `[5, 3)` is rejected with `InvalidRange`;
`[5, 5)` is accepted as an empty-interval record. -/
theorem c6_invalid_range_witness :
    insertConfig [] ⟨1, "m", none, [], 5, some 3⟩ = .error .invalidRange ∧
    insertConfig [] ⟨1, "m", none, [], 5, some 5⟩ =
      .ok (0, [⟨0, 1, "m", none, [], scope_hash [], 5, some 5, .empty⟩]) := by
  constructor
  · exact (c6_invalid_range _ _ 3 rfl).1 (by decide)
  · exact (c6_invalid_range _ _ 5 rfl).2 rfl

/-- C9: records whose scope mappings have different fingerprints belong
to independent series — if every stored record's fingerprint differs
from the new request's, the insert succeeds whatever the intervals are
(even identical ones): the no-overlap check never fires across
different scope fingerprints. -/
theorem c9_independent_series (st : Store) (req : InsertReq) (rng : Daterange)
    (hrng : daterange req.effective_from req.effective_to = .ok rng)
    (hdiff : ∀ r ∈ st, r.scope_hash ≠ scope_hash req.scope) :
    insertConfig st req =
      .ok (st.length,
        st ++ [⟨st.length, req.company_id, req.metric_key, req.target_value, req.scope,
               scope_hash req.scope, req.effective_from, req.effective_to, rng⟩]) := by
  have hall : ∀ r ∈ seriesOf st req.company_id req.metric_key (scope_hash req.scope),
      r.effective_range.overlaps rng = false := by
    intro r hr
    rcases mem_seriesOf.mp hr with ⟨hmem, hss⟩
    have : r.scope_hash = scope_hash req.scope := by
      simp [sameSeries] at hss
      exact hss.2
    exact absurd this (hdiff r hmem)
  exact insertConfig_ok_of_disjoint st req rng hrng hall

/-- Witness for C9: with a record of scope `{a:1}` on `[0, 10)` in
store, inserting the identical interval `[0, 10)` with scope `{a:2}`
for the same tenant and subject succeeds. -/
theorem c9_independent_series_witness :
    insertConfig
        [⟨0, 1, "m", none, [("a", .num 1)], scope_hash [("a", .num 1)], 0, some 10,
          .ivl 0 (some 10)⟩]
        ⟨1, "m", none, [("a", .num 2)], 0, some 10⟩ =
      .ok (1, [⟨0, 1, "m", none, [("a", .num 1)], scope_hash [("a", .num 1)], 0, some 10,
               .ivl 0 (some 10)⟩,
               ⟨1, 1, "m", none, [("a", .num 2)], scope_hash [("a", .num 2)], 0, some 10,
               .ivl 0 (some 10)⟩]) := by
  apply c9_independent_series
    [⟨0, 1, "m", none, [("a", .num 1)], scope_hash [("a", .num 1)], 0, some 10, .ivl 0 (some 10)⟩]
    ⟨1, "m", none, [("a", .num 2)], 0, some 10⟩ (.ivl 0 (some 10)) rfl
  intro r hr
  simp at hr
  rw [hr]
  decide

/-! ### Daily aggregate fact checks -/

/-- C5: given nonnegative minute fields and a bounds check that passes,
a fact whose components sum exactly to the stated worked total is
accepted, and one whose components do not sum to it is rejected with
`ArithmeticMismatch`. -/
theorem c5_fact_arithmetic (e : TimeEntry)
    (hnn : chk_minutes_nonneg e = true)
    (hb : chk_absenteeism_bounds e = true) :
    (e.worked_minutes = e.regular_minutes + e.ot1_minutes + e.ot2_minutes →
      checkTimeEntry e = .ok ()) ∧
    (e.worked_minutes ≠ e.regular_minutes + e.ot1_minutes + e.ot2_minutes →
      checkTimeEntry e = .error .arithmeticMismatch) := by
  constructor <;> intro h <;>
    simp [checkTimeEntry, chk_minutes_consistency, hnn, hb, h]

/-- Witness for C5: regular=400, ot1=30, ot2=0 with worked=430 is
accepted; the same components with worked=450 are rejected with
`ArithmeticMismatch`. -/
theorem c5_fact_arithmetic_witness :
    checkTimeEntry ⟨1, 1, none, 0, none, 430, 400, 30, 0, none⟩ = .ok () ∧
    checkTimeEntry ⟨1, 1, none, 0, none, 450, 400, 30, 0, none⟩ =
      .error .arithmeticMismatch :=
  ⟨(c5_fact_arithmetic ⟨1, 1, none, 0, none, 430, 400, 30, 0, none⟩
      (by decide) (by decide)).1 (by decide),
   (c5_fact_arithmetic ⟨1, 1, none, 0, none, 450, 400, 30, 0, none⟩
      (by decide) (by decide)).2 (by decide)⟩

/-- C3: given nonnegative minute fields and consistent components, a
fact whose absence minutes exceed its same-day scheduled minutes is
rejected with `BoundsViolation`; absence minutes equal to scheduled
minutes are accepted; with no schedule (`scheduled_minutes` null) the
bound is skipped — the fact is accepted and flagged unbounded. -/
theorem c3_absence_bounds (e : TimeEntry) (s : Int)
    (hnn : chk_minutes_nonneg e = true)
    (hc : chk_minutes_consistency e = true) :
    (∀ a, e.scheduled_minutes = some s → e.absence_minutes = some a → s < a →
      checkTimeEntry e = .error .boundsViolation) ∧
    (e.scheduled_minutes = some s → e.absence_minutes = some s →
      checkTimeEntry e = .ok ()) ∧
    (e.scheduled_minutes = none →
      checkTimeEntry e = .ok () ∧ isUnbounded e = true) := by
  refine ⟨?_, ?_, ?_⟩
  · intro a hs ha hlt
    simp [checkTimeEntry, hnn, hc, chk_absenteeism_bounds, hs, ha, not_le.mpr hlt]
  · intro hs ha
    simp [checkTimeEntry, hnn, hc, chk_absenteeism_bounds, hs, ha]
  · intro hs
    constructor
    · simp [checkTimeEntry, hnn, hc, chk_absenteeism_bounds, hs]
    · simp [isUnbounded, hs]

/-- Witness for C3: scheduled=480 with absence=500 is rejected with
`BoundsViolation`; scheduled=480 with absence=480 is accepted; no
schedule with absence=500 is accepted and flagged unbounded. -/
theorem c3_absence_bounds_witness :
    checkTimeEntry ⟨1, 1, none, 0, some 480, 0, 0, 0, 0, some 500⟩ =
      .error .boundsViolation ∧
    checkTimeEntry ⟨1, 1, none, 0, some 480, 0, 0, 0, 0, some 480⟩ = .ok () ∧
    (checkTimeEntry ⟨1, 1, none, 0, none, 0, 0, 0, 0, some 500⟩ = .ok () ∧
      isUnbounded ⟨1, 1, none, 0, none, 0, 0, 0, 0, some 500⟩ = true) :=
  ⟨(c3_absence_bounds ⟨1, 1, none, 0, some 480, 0, 0, 0, 0, some 500⟩ 480
      (by decide) (by decide)).1 500 rfl rfl (by decide),
   (c3_absence_bounds ⟨1, 1, none, 0, some 480, 0, 0, 0, 0, some 480⟩ 480
      (by decide) (by decide)).2.1 rfl rfl,
   (c3_absence_bounds ⟨1, 1, none, 0, none, 0, 0, 0, 0, some 500⟩ 0
      (by decide) (by decide)).2.2 rfl⟩

/-- C10: given nonnegative minute fields and consistent components, a
fact with a schedule (`scheduled_minutes` non-null) but null
`absence_minutes` is rejected, and the bounds check passes on a fact
with null `absence_minutes` only when `scheduled_minutes` is null. -/
theorem c10_schedule_requires_absence (e : TimeEntry) (s : Int)
    (hnn : chk_minutes_nonneg e = true)
    (hc : chk_minutes_consistency e = true) :
    (e.scheduled_minutes = some s → e.absence_minutes = none →
      checkTimeEntry e = .error .boundsViolation) ∧
    (chk_absenteeism_bounds e = true → e.absence_minutes = none →
      e.scheduled_minutes = none) := by
  constructor
  · intro hs ha
    simp [checkTimeEntry, hnn, hc, chk_absenteeism_bounds, hs, ha]
  · intro hb ha
    rcases hs : e.scheduled_minutes with _ | s'
    · rfl
    · rw [chk_absenteeism_bounds, hs, ha] at hb
      exact absurd hb (by simp)

/-- Witness for C10: scheduled=480 with null absence minutes is
rejected; the bounds check accepts null absence minutes when the
schedule is null. -/
theorem c10_schedule_requires_absence_witness :
    checkTimeEntry ⟨1, 1, none, 0, some 480, 0, 0, 0, 0, none⟩ =
      .error .boundsViolation ∧
    chk_absenteeism_bounds ⟨1, 1, none, 0, none, 0, 0, 0, 0, none⟩ = true :=
  ⟨(c10_schedule_requires_absence ⟨1, 1, none, 0, some 480, 0, 0, 0, 0, none⟩ 480
      (by decide) (by decide)).1 rfl rfl,
   by decide⟩

/-! ### The external-identifier trigger -/

/-- C7: if the caller supplies a tenant (`company_id`) on a row naming a
subject whose directory entry carries a different tenant, the trigger
raises `TenantMismatch` (given the directory holds an identifier for the
subject, as the schema's NOT NULL on `employees.external_id`
guarantees); and on any successful write a caller-supplied tenant is
kept verbatim, never silently reassigned. -/
theorem c7_tenant_mismatch (dir : Directory) (row : TriggerRow) (emp : Employee)
    (ext : String) (rc : Nat)
    (hlk : lookupEmployee dir row.employee_id = some emp)
    (hext : emp.external_id = some ext)
    (hrc : row.company_id = some rc)
    (hne : rc ≠ emp.company_id) :
    set_employee_external_id dir row = .error (.tenantMismatch rc emp.company_id) ∧
    (∀ (dir₂ : Directory) (r out : TriggerRow) (c : Nat),
      r.company_id = some c → set_employee_external_id dir₂ r = .ok out →
      out.company_id = some c) := by
  constructor
  · simp [set_employee_external_id, hlk, hext, hrc, hne]
  · intro dir₂ r out c hc hok
    unfold set_employee_external_id at hok
    rcases hlk₂ : lookupEmployee dir₂ r.employee_id with _ | emp₂
    · simp [hlk₂] at hok
    · rcases hext₂ : emp₂.external_id with _ | ext₂
      · simp [hlk₂, hext₂] at hok
      · by_cases hmm : c = emp₂.company_id
        · simp [hlk₂, hext₂, hc, hmm] at hok
          rw [← hok]
          simp [hmm]
        · simp [hlk₂, hext₂, hc, hmm] at hok

/-- Witness for C7: a row supplying tenant 7 for an employee whose
directory tenant is 5 is rejected with `TenantMismatch 7 5`. -/
theorem c7_tenant_mismatch_witness :
    set_employee_external_id [⟨1, some "E1", 5⟩] ⟨1, some 7, none⟩ =
      .error (.tenantMismatch 7 5) :=
  (c7_tenant_mismatch [⟨1, some "E1", 5⟩] ⟨1, some 7, none⟩ ⟨1, some "E1", 5⟩
    "E1" 7 rfl rfl rfl (by decide)).1

/-- C8: on every successful write the persisted row's
`employee_external_id` equals the directory's current identifier for the
subject (whatever the caller supplied), and is never null; if the
subject is missing from the directory, or its directory entry has no
identifier, the write fails with `MissingIdentifier`. -/
theorem c8_identifier_propagation (dir : Directory) (row : TriggerRow) :
    (∀ out, set_employee_external_id dir row = .ok out →
      ∃ emp, lookupEmployee dir row.employee_id = some emp ∧
        out.employee_external_id = emp.external_id ∧
        out.employee_external_id ≠ none) ∧
    (lookupEmployee dir row.employee_id = none →
      set_employee_external_id dir row = .error (.missingIdentifier row.employee_id)) ∧
    (∀ emp, lookupEmployee dir row.employee_id = some emp → emp.external_id = none →
      set_employee_external_id dir row = .error (.missingIdentifier row.employee_id)) := by
  refine ⟨?_, ?_, ?_⟩
  · intro out hok
    unfold set_employee_external_id at hok
    rcases hlk : lookupEmployee dir row.employee_id with _ | emp
    · simp [hlk] at hok
    · refine ⟨emp, rfl, ?_⟩
      rcases hext : emp.external_id with _ | ext
      · simp [hlk, hext] at hok
      · rcases hc : row.company_id with _ | rc
        · simp [hlk, hext, hc] at hok
          rw [← hok]
          exact ⟨rfl, by simp⟩
        · by_cases hmm : rc = emp.company_id
          · simp [hlk, hext, hc, hmm] at hok
            rw [← hok]
            exact ⟨rfl, by simp⟩
          · simp [hlk, hext, hc, hmm] at hok
  · intro hlk
    simp [set_employee_external_id, hlk]
  · intro emp hlk hext
    simp [set_employee_external_id, hlk, hext]

/-- Witness for C8: the caller's stale identifier "OLD" is overwritten
with the directory's "E1"; a subject absent from the directory is
rejected with `MissingIdentifier`; a directory entry with a null
identifier is rejected with `MissingIdentifier`. -/
theorem c8_identifier_propagation_witness :
    (∃ emp, lookupEmployee [⟨1, some "E1", 5⟩] 1 = some emp ∧
      (⟨1, some 5, some "E1"⟩ : TriggerRow).employee_external_id = emp.external_id ∧
      (⟨1, some 5, some "E1"⟩ : TriggerRow).employee_external_id ≠ none) ∧
    set_employee_external_id [⟨1, some "E1", 5⟩] ⟨2, some 5, some "OLD"⟩ =
      .error (.missingIdentifier 2) ∧
    set_employee_external_id [⟨1, none, 5⟩] ⟨1, some 5, some "OLD"⟩ =
      .error (.missingIdentifier 1) :=
  ⟨(c8_identifier_propagation [⟨1, some "E1", 5⟩] ⟨1, some 5, some "OLD"⟩).1
      ⟨1, some 5, some "E1"⟩ rfl,
   (c8_identifier_propagation [⟨1, some "E1", 5⟩] ⟨2, some 5, some "OLD"⟩).2.1 rfl,
   (c8_identifier_propagation [⟨1, none, 5⟩] ⟨1, some 5, some "OLD"⟩).2.2
      ⟨1, none, 5⟩ rfl rfl⟩

/-! ### The no-overlap invariant and point-in-time uniqueness -/

theorem overlaps_comm (a b : Daterange) : a.overlaps b = b.overlaps a := by
  rcases a with _ | ⟨la, ha⟩ <;> rcases b with _ | ⟨lb, hb⟩ <;>
    simp only [Daterange.overlaps]
  exact Bool.and_comm _ _

theorem overlaps_of_containsPt {a b : Daterange} {d : Date}
    (ha : a.containsPt d = true) (hb : b.containsPt d = true) :
    a.overlaps b = true := by
  rcases a with _ | ⟨la, ua⟩
  · simp [Daterange.containsPt] at ha
  rcases b with _ | ⟨lb, ub⟩
  · simp [Daterange.containsPt] at hb
  rcases ua with _ | ua₂ <;> rcases ub with _ | ub₂ <;>
    simp [Daterange.containsPt, Daterange.overlaps] at ha hb ⊢
  · exact lt_of_le_of_lt ha hb.2
  · exact lt_of_le_of_lt hb ha.2
  · exact ⟨lt_of_le_of_lt ha.1 hb.2, lt_of_le_of_lt hb.1 ha.2⟩

theorem insertConfig_ok_elim {st st' : Store} {req : InsertReq} {i : Nat}
    (hok : insertConfig st req = .ok (i, st')) :
    ∃ rng, daterange req.effective_from req.effective_to = .ok rng ∧
      (∀ r ∈ seriesOf st req.company_id req.metric_key (scope_hash req.scope),
        r.effective_range.overlaps rng = false) ∧
      st' = st ++ [⟨st.length, req.company_id, req.metric_key, req.target_value, req.scope,
                   scope_hash req.scope, req.effective_from, req.effective_to, rng⟩] := by
  unfold insertConfig at hok
  cases hrng : daterange req.effective_from req.effective_to with
  | error e => rw [hrng] at hok; exact absurd hok (by simp)
  | ok rng =>
    rw [hrng] at hok
    rcases hce : conflictsWith st req.company_id req.metric_key (scope_hash req.scope) rng with _ | ⟨a, rest⟩
    · simp [hce] at hok
      exact ⟨rng, rfl, conflictsWith_eq_nil.mp hce, hok.2.symm⟩
    · simp [hce] at hok

theorem storeInv_insert {st st' : Store} {req : InsertReq} {i : Nat}
    (hinv : storeInv st) (hok : insertConfig st req = .ok (i, st')) :
    storeInv st' := by
  rcases insertConfig_ok_elim hok with ⟨rng, _, hall, hst⟩
  rw [hst]
  rw [storeInv, List.pairwise_append]
  refine ⟨hinv, by simp, ?_⟩
  intro a hmem b hb
  rw [List.mem_singleton] at hb
  intro hss
  rw [hb]
  rw [hb] at hss
  exact hall a (mem_seriesOf.mpr ⟨hmem, hss⟩)

theorem storeInv_applyAll (reqs : List InsertReq) : storeInv (applyAll reqs) := by
  have haux : ∀ st : Store, storeInv st →
      storeInv (reqs.foldl
        (fun st req =>
          match insertConfig st req with
          | .ok (_, st') => st'
          | .error _ => st) st) := by
    induction reqs with
    | nil => intro st h; exact h
    | cons req rest ih =>
      intro st h
      simp only [List.foldl]
      cases hstep : insertConfig st req with
      | ok p =>
        rcases p with ⟨i, st'⟩
        exact ih st' (storeInv_insert h hstep)
      | error e => exact ih st h
  exact haux [] List.Pairwise.nil

theorem seriesOf_pairwise_nooverlap (st : Store) (c : Nat) (k h : String)
    (hinv : storeInv st) :
    (seriesOf st c k h).Pairwise
      (fun a b => a.effective_range.overlaps b.effective_range = false) := by
  have hsub : (seriesOf st c k h).Pairwise (fun a b =>
      sameSeries a b.company_id b.metric_key b.scope_hash = true →
        a.effective_range.overlaps b.effective_range = false) :=
    List.Pairwise.sublist (List.filter_sublist st) hinv
  refine List.Pairwise.imp_of_mem ?_ hsub
  intro a b hma hmb himp
  rcases mem_seriesOf.mp hma with ⟨-, hsa⟩
  rcases mem_seriesOf.mp hmb with ⟨-, hsb⟩
  simp [sameSeries] at hsa hsb
  apply himp
  simp [sameSeries, hsa.1.1, hsa.1.2, hsa.2, hsb.1.1, hsb.1.2, hsb.2]

theorem pairwise_filter_length_le_one {α} {l : List α} {p : α → Bool}
    (h : l.Pairwise (fun a b => ¬(p a = true ∧ p b = true))) :
    (l.filter p).length ≤ 1 := by
  induction l with
  | nil => simp
  | cons a t ih =>
    rcases List.pairwise_cons.mp h with ⟨ha, ht⟩
    by_cases hpa : p a = true
    · rw [List.filter_cons_of_pos hpa]
      have hnil : t.filter p = [] := by
        rw [List.filter_eq_nil_iff]
        intro b hb
        intro hpb
        exact ha b hb ⟨hpa, hpb⟩
      simp [hnil]
    · rw [List.filter_cons_of_neg (by simpa using hpa)]
      exact ih ht

theorem eq_of_mem_of_length_le_one {α} {l : List α} (h : l.length ≤ 1) {a b : α}
    (ha : a ∈ l) (hb : b ∈ l) : a = b := by
  rcases l with _ | ⟨x, _ | ⟨y, t⟩⟩
  · simp at ha
  · simp at ha hb; rw [ha, hb]
  · simp at h

/-- C2: in any store reachable by inserts from the empty store, for any
date `d` and any (tenant, subject, scope) series, at most one record's
interval contains `d`, and `active_as_of` returns exactly the records
of that series whose interval contains `d`. -/
theorem c2_point_in_time_unique (reqs : List InsertReq) (c : Nat) (k : String)
    (sc : Scope) (d : Date) :
    (((seriesOf (applyAll reqs) c k (scope_hash sc)).filter
        (fun r => r.effective_range.containsPt d)).length ≤ 1) ∧
    (∀ r, active_as_of (applyAll reqs) c k sc d = some r ↔
      (r ∈ seriesOf (applyAll reqs) c k (scope_hash sc) ∧
        r.effective_range.containsPt d = true)) := by
  have hinv := storeInv_applyAll reqs
  have hpw := seriesOf_pairwise_nooverlap (applyAll reqs) c k (scope_hash sc) hinv
  have hpw2 : (seriesOf (applyAll reqs) c k (scope_hash sc)).Pairwise
      (fun a b => ¬(a.effective_range.containsPt d = true ∧
                    b.effective_range.containsPt d = true)) := by
    refine hpw.imp ?_
    intro a b hno hcon
    rw [overlaps_of_containsPt hcon.1 hcon.2] at hno
    exact absurd hno (by simp)
  have hlen := pairwise_filter_length_le_one hpw2
  refine ⟨hlen, ?_⟩
  intro r
  constructor
  · intro hfind
    rw [active_as_of] at hfind
    refine ⟨List.mem_of_find?_eq_some hfind, ?_⟩
    have hp := List.find?_some hfind
    simpa using hp
  · rintro ⟨hmem, hpt⟩
    have hsome : ((seriesOf (applyAll reqs) c k (scope_hash sc)).find?
        (fun r => r.effective_range.containsPt d)).isSome :=
      List.find?_isSome.mpr ⟨r, hmem, hpt⟩
    rcases Option.isSome_iff_exists.mp hsome with ⟨q, hq⟩
    have hqmem := List.mem_of_find?_eq_some hq
    have hqpt := List.find?_some hq
    have h1 : q ∈ (seriesOf (applyAll reqs) c k (scope_hash sc)).filter
        (fun r => r.effective_range.containsPt d) :=
      List.mem_filter.mpr ⟨hqmem, hqpt⟩
    have h2 : r ∈ (seriesOf (applyAll reqs) c k (scope_hash sc)).filter
        (fun r => r.effective_range.containsPt d) :=
      List.mem_filter.mpr ⟨hmem, hpt⟩
    rw [active_as_of, hq, eq_of_mem_of_length_le_one hlen h1 h2]

/-- Witness for C2: after inserting `[0, 10)` and `[10, ∞)` for one
series, `active_as_of` at date 5 returns the first record. -/
theorem c2_point_in_time_unique_witness :
    active_as_of
        (applyAll [⟨1, "m", none, [], 0, some 10⟩, ⟨1, "m", none, [], 10, none⟩])
        1 "m" [] 5 =
      some ⟨0, 1, "m", none, [], scope_hash [], 0, some 10, .ivl 0 (some 10)⟩ :=
  ((c2_point_in_time_unique [⟨1, "m", none, [], 0, some 10⟩, ⟨1, "m", none, [], 10, none⟩]
      1 "m" [] 5).2
    ⟨0, 1, "m", none, [], scope_hash [], 0, some 10, .ivl 0 (some 10)⟩).mpr
    ⟨by decide, by decide⟩

/-! ### The scope canonicalizer -/

theorem jkeyLt_trans {a b c : String} (h₁ : jkeyLt a b) (h₂ : jkeyLt b c) :
    jkeyLt a c := by
  rcases h₁ with h₁ | ⟨e₁, l₁⟩ <;> rcases h₂ with h₂ | ⟨e₂, l₂⟩
  · exact Or.inl (lt_trans h₁ h₂)
  · exact Or.inl (by rw [← e₂]; exact h₁)
  · exact Or.inl (by rw [e₁]; exact h₂)
  · exact Or.inr ⟨e₁.trans e₂, lt_trans l₁ l₂⟩

theorem jkeyLt_irrefl (a : String) : ¬ jkeyLt a a := by
  rintro (h | ⟨-, h⟩)
  · exact lt_irrefl _ h
  · exact lt_irrefl _ h

theorem jkeyLt_ne {a b : String} (h : jkeyLt a b) : a ≠ b := by
  rintro rfl
  exact jkeyLt_irrefl a h

theorem jkeyLt_total (a b : String) : jkeyLt a b ∨ a = b ∨ jkeyLt b a := by
  rcases Nat.lt_trichotomy a.length b.length with h | h | h
  · exact Or.inl (Or.inl h)
  · rcases lt_trichotomy a b with h' | h' | h'
    · exact Or.inl (Or.inr ⟨h, h'⟩)
    · exact Or.inr (Or.inl h')
    · exact Or.inr (Or.inr (Or.inr ⟨h.symm, h'⟩))
  · exact Or.inr (Or.inr (Or.inl h))

theorem alookup_canonUpsert (ki : String) (v : JVal) (l : List (String × JVal))
    (k : String) :
    alookup k (canonUpsert ki v l) = if ki = k then some v else alookup k l := by
  induction l with
  | nil => simp [canonUpsert, alookup]
  | cons p rest ih =>
    rcases p with ⟨k₁, v₁⟩
    by_cases h₁ : ki = k₁
    · rw [canonUpsert, if_pos h₁]
      by_cases hk : ki = k
      · simp [alookup, hk]
      · have hk₁ : ¬ (k₁ = k) := by rw [← h₁]; exact hk
        simp [alookup, hk, hk₁]
    · rw [canonUpsert, if_neg h₁]
      by_cases h₂ : jkeyLt ki k₁
      · rw [if_pos h₂]
        by_cases hk : ki = k
        · simp [alookup, hk]
        · simp [alookup, hk]
      · rw [if_neg h₂]
        by_cases hk₁ : k₁ = k
        · have hik : ¬ (ki = k) := by rw [← hk₁]; exact h₁
          simp [alookup, hk₁, hik]
        · simp [alookup, hk₁, ih]

theorem mem_canonUpsert {ki : String} {v : JVal} {l : List (String × JVal)}
    {p : String × JVal} (h : p ∈ canonUpsert ki v l) :
    p = (ki, v) ∨ p ∈ l := by
  induction l with
  | nil => simp [canonUpsert] at h; exact Or.inl h
  | cons q rest ih =>
    rcases q with ⟨k₁, v₁⟩
    by_cases h₁ : ki = k₁
    · rw [canonUpsert, if_pos h₁] at h
      rcases List.mem_cons.mp h with h | h
      · exact Or.inl h
      · exact Or.inr (List.mem_cons_of_mem _ h)
    · rw [canonUpsert, if_neg h₁] at h
      by_cases h₂ : jkeyLt ki k₁
      · rw [if_pos h₂] at h
        rcases List.mem_cons.mp h with h | h
        · exact Or.inl h
        · exact Or.inr h
      · rw [if_neg h₂] at h
        rcases List.mem_cons.mp h with h | h
        · exact Or.inr (h ▸ List.mem_cons_self _ _)
        · rcases ih h with h | h
          · exact Or.inl h
          · exact Or.inr (List.mem_cons_of_mem _ h)

theorem keyOrdered_canonUpsert {ki : String} {v : JVal} {l : List (String × JVal)}
    (h : keyOrdered l) : keyOrdered (canonUpsert ki v l) := by
  induction l with
  | nil => simp [canonUpsert, keyOrdered]
  | cons q rest ih =>
    rcases q with ⟨k₁, v₁⟩
    rcases List.pairwise_cons.mp h with ⟨hhd, htl⟩
    by_cases h₁ : ki = k₁
    · rw [canonUpsert, if_pos h₁]
      refine List.pairwise_cons.mpr ⟨?_, htl⟩
      intro q hq
      rw [h₁]
      exact hhd q hq
    · rw [canonUpsert, if_neg h₁]
      by_cases h₂ : jkeyLt ki k₁
      · rw [if_pos h₂]
        refine List.pairwise_cons.mpr ⟨?_, h⟩
        intro q hq
        rcases List.mem_cons.mp hq with h | h
        · rw [h]; exact h₂
        · exact jkeyLt_trans h₂ (hhd q h)
      · rw [if_neg h₂]
        refine List.pairwise_cons.mpr ⟨?_, ih htl⟩
        intro q hq
        rcases mem_canonUpsert hq with h | h
        · rw [h]
          rcases jkeyLt_total ki k₁ with h' | h' | h'
          · exact absurd h' h₂
          · exact absurd h' h₁
          · exact h'
        · exact hhd q h

theorem jLookup_foldl (s : Scope) (k : String) :
    ∀ init : Option JVal,
      s.foldl (fun r q => if q.1 = k then some q.2 else r) init =
        match jLookup s k with
        | some v => some v
        | none => init := by
  induction s with
  | nil => intro init; simp [jLookup]
  | cons p s ih =>
    intro init
    have hcons : jLookup (p :: s) k =
        match jLookup s k with
        | some v => some v
        | none => if p.1 = k then some p.2 else none := by
      rw [jLookup, List.foldl_cons]
      exact ih _
    rw [List.foldl_cons, ih _, hcons]
    rcases hj : jLookup s k with _ | v
    · by_cases hp : p.1 = k <;> simp [hp]
    · simp

theorem jLookup_cons (p : String × JVal) (s : Scope) (k : String) :
    jLookup (p :: s) k =
      match jLookup s k with
      | some v => some v
      | none => if p.1 = k then some p.2 else none := by
  rw [jLookup, List.foldl_cons]
  exact jLookup_foldl s k _

theorem alookup_canonFold (s : Scope) (k : String) :
    ∀ acc : List (String × JVal),
      alookup k (s.foldl (fun acc p => canonUpsert p.1 p.2 acc) acc) =
        match jLookup s k with
        | some v => some v
        | none => alookup k acc := by
  induction s with
  | nil => intro acc; simp [jLookup]
  | cons p s ih =>
    intro acc
    rw [List.foldl_cons, ih _, jLookup_cons, alookup_canonUpsert]
    rcases hj : jLookup s k with _ | v
    · by_cases hp : p.1 = k <;> simp [hp]
    · simp

theorem alookup_canonObject (s : Scope) (k : String) :
    alookup k (canonObject s) = jLookup s k := by
  rw [canonObject, alookup_canonFold]
  rcases hj : jLookup s k with _ | v <;> simp [alookup]

theorem keyOrdered_canonObject (s : Scope) : keyOrdered (canonObject s) := by
  have haux : ∀ acc : List (String × JVal), keyOrdered acc →
      keyOrdered (s.foldl (fun acc p => canonUpsert p.1 p.2 acc) acc) := by
    induction s with
    | nil => intro acc h; exact h
    | cons p s ih =>
      intro acc h
      rw [List.foldl_cons]
      exact ih _ (keyOrdered_canonUpsert h)
  exact haux [] List.Pairwise.nil

theorem alookup_eq_none {l : List (String × JVal)} {k : String}
    (h : ∀ q ∈ l, q.1 ≠ k) : alookup k l = none := by
  induction l with
  | nil => rfl
  | cons p rest ih =>
    rw [alookup, if_neg (h p (List.mem_cons_self p rest))]
    exact ih (fun q hq => h q (List.mem_cons_of_mem p hq))

theorem alookup_filter_nn {l : List (String × JVal)} (hs : keyOrdered l)
    (k : String) :
    alookup k (l.filter (fun p => decide (p.2 ≠ JVal.null))) =
      match alookup k l with
      | some v => if v = JVal.null then none else some v
      | none => none := by
  induction l with
  | nil => rfl
  | cons p rest ih =>
    rcases p with ⟨k₁, v₁⟩
    rcases List.pairwise_cons.mp hs with ⟨hhd, htl⟩
    by_cases hk : k₁ = k
    · by_cases hv : v₁ = JVal.null
      · rw [List.filter_cons_of_neg (by simp [hv])]
        have hnone : alookup k (rest.filter (fun p => decide (p.2 ≠ JVal.null))) = none := by
          apply alookup_eq_none
          intro q hq
          have hq₂ := (List.mem_filter.mp hq).1
          rw [← hk]
          exact (jkeyLt_ne (hhd q hq₂)).symm
        rw [hnone, alookup, if_pos hk]
        simp [hv]
      · rw [List.filter_cons_of_pos (by simp [hv])]
        rw [alookup, if_pos hk, alookup, if_pos hk]
        simp [hv]
    · by_cases hv : v₁ = JVal.null
      · rw [List.filter_cons_of_neg (by simp [hv])]
        rw [ih htl, alookup, if_neg hk]
      · rw [List.filter_cons_of_pos (by simp [hv])]
        rw [alookup, if_neg hk, ih htl, alookup, if_neg hk]

theorem alookup_ext {l₁ l₂ : List (String × JVal)}
    (h₁ : keyOrdered l₁) (h₂ : keyOrdered l₂)
    (h : ∀ k, alookup k l₁ = alookup k l₂) : l₁ = l₂ := by
  induction l₁ generalizing l₂ with
  | nil =>
    rcases l₂ with _ | ⟨⟨k₂, v₂⟩, t₂⟩
    · rfl
    · have := h k₂
      rw [alookup, alookup, if_pos rfl] at this
      exact absurd this (by simp)
  | cons p₁ t₁ ih =>
    rcases p₁ with ⟨k₁, v₁⟩
    rcases List.pairwise_cons.mp h₁ with ⟨hhd₁, htl₁⟩
    rcases l₂ with _ | ⟨⟨k₂, v₂⟩, t₂⟩
    · have := h k₁
      rw [alookup, alookup, if_pos rfl] at this
      exact absurd this (by simp)
    · rcases List.pairwise_cons.mp h₂ with ⟨hhd₂, htl₂⟩
      rcases jkeyLt_total k₁ k₂ with hlt | heq | hgt
      · exfalso
        have := h k₁
        rw [alookup, if_pos rfl, alookup, if_neg (jkeyLt_ne hlt).symm] at this
        have hnone : alookup k₁ t₂ = none := by
          apply alookup_eq_none
          intro q hq
          exact (jkeyLt_ne (jkeyLt_trans hlt (hhd₂ q hq))).symm
        rw [hnone] at this
        exact absurd this (by simp)
      · have hv : v₁ = v₂ := by
          have := h k₁
          rw [alookup, if_pos rfl, alookup, if_pos heq.symm] at this
          exact Option.some.inj this
        have htv : t₁ = t₂ := by
          apply ih htl₁ htl₂
          intro k
          by_cases hk : k₁ = k
          · have hn₁ : alookup k t₁ = none := by
              apply alookup_eq_none
              intro q hq
              rw [← hk]
              exact (jkeyLt_ne (hhd₁ q hq)).symm
            have hn₂ : alookup k t₂ = none := by
              apply alookup_eq_none
              intro q hq
              rw [← hk, heq]
              exact (jkeyLt_ne (hhd₂ q hq)).symm
            rw [hn₁, hn₂]
          · have := h k
            have hk₂ : ¬ (k₂ = k) := by rw [← heq]; exact hk
            rw [alookup, if_neg hk, alookup, if_neg hk₂] at this
            exact this
        rw [heq, hv, htv]
      · exfalso
        have := h k₂
        rw [alookup, alookup, if_pos rfl, if_neg (jkeyLt_ne hgt).symm] at this
        have hnone : alookup k₂ t₁ = none := by
          apply alookup_eq_none
          intro q hq
          exact (jkeyLt_ne (jkeyLt_trans hgt (hhd₁ q hq))).symm
        rw [hnone] at this
        exact absurd this (by simp)

theorem keyOrdered_scope_canonical (s : Scope) : keyOrdered (scope_canonical s) :=
  List.Pairwise.sublist (List.filter_sublist _) (keyOrdered_canonObject s)

theorem alookup_scope_canonical (s : Scope) (k : String) :
    alookup k (scope_canonical s) = strippedLookup s k := by
  rw [scope_canonical, alookup_filter_nn (keyOrdered_canonObject s), alookup_canonObject]
  rcases hj : jLookup s k with _ | v
  · simp [strippedLookup, hj]
  · rcases v with s' | n | _ <;> simp [strippedLookup, hj]

/-- C4: two scope mappings that agree after null-stripping (the same
value at every key, null values reading as absent, later duplicates
winning) produce identical fingerprints, whatever the original key
order or representation. -/
theorem c4_fingerprint_determinism (s₁ s₂ : Scope)
    (h : ∀ k, strippedLookup s₁ k = strippedLookup s₂ k) :
    scope_hash s₁ = scope_hash s₂ := by
  have he : scope_canonical s₁ = scope_canonical s₂ := by
    apply alookup_ext (keyOrdered_scope_canonical s₁) (keyOrdered_scope_canonical s₂)
    intro k
    rw [alookup_scope_canonical, alookup_scope_canonical, h k]
  rw [scope_hash, scope_hash, he]

/-- Witness for C4: `canonicalize(\x7ba:1,b:2\x7d)` equals
`canonicalize(\x7bb:2,a:1\x7d)`, and `canonicalize(\x7ba:1,b:null\x7d)`
equals `canonicalize(\x7ba:1\x7d)`. -/
theorem c4_fingerprint_determinism_witness :
    scope_hash [("a", .num 1), ("b", .num 2)] =
      scope_hash [("b", .num 2), ("a", .num 1)] ∧
    scope_hash [("a", .num 1), ("b", .null)] = scope_hash [("a", .num 1)] := by
  constructor
  · apply c4_fingerprint_determinism
    intro k
    by_cases ha : "a" = k
    · by_cases hb : "b" = k
      · rw [← ha] at hb
        exact absurd hb (by decide)
      · simp [strippedLookup, jLookup, ha, hb]
    · by_cases hb : "b" = k
      · simp [strippedLookup, jLookup, ha, hb]
      · simp [strippedLookup, jLookup, ha, hb]
  · apply c4_fingerprint_determinism
    intro k
    by_cases ha : "a" = k
    · by_cases hb : "b" = k
      · rw [← ha] at hb
        exact absurd hb (by decide)
      · simp [strippedLookup, jLookup, ha, hb]
    · by_cases hb : "b" = k
      · simp [strippedLookup, jLookup, ha, hb]
      · simp [strippedLookup, jLookup, ha, hb]

end HoM
